import Mathlib

/-!
Verification of the Rewrite-Retrieve-Read query pipeline and the retrieval
notebook of this repository.

String manipulation is embedded at the level of `List Char` (with `String`
wrappers) so that every definition evaluates inside the kernel.  Python
`str.split(sep)`, `str.strip()` and `s.split(sep, 1)` are embedded as
`splitChar`, `trimChars` and `splitOnce` below.
-/

/-- Split a character list at every occurrence of the separator, embedding
Python `str.split(sep)` for a one-character separator.  The accumulator holds
the current piece in reverse. -/
def splitAux (sep : Char) : List Char → List Char → List (List Char)
  | [], acc => [acc.reverse]
  | c :: cs, acc =>
    if c = sep then acc.reverse :: splitAux sep cs [] else splitAux sep cs (c :: acc)

/-- Python `str.split(sep)` for a one-character separator. -/
def splitChar (sep : Char) (l : List Char) : List (List Char) :=
  splitAux sep l []

/-- Python `str.strip()`: drop whitespace from both ends. -/
def trimChars (l : List Char) : List Char :=
  ((l.dropWhile Char.isWhitespace).reverse.dropWhile Char.isWhitespace).reverse

/-- Python `s.split(sep, 1)` when the separator occurs: the part before the
first occurrence of `sep` and the part after it.  `none` when `sep` does not
occur in `l`. -/
def splitOnce (sep : Char) : List Char → Option (List Char × List Char)
  | [] => none
  | c :: cs =>
    if c = sep then some ([], cs)
    else (splitOnce sep cs).map (fun p => (c :: p.1, p.2))

/-- String wrapper for `trimChars`. -/
def trimString (s : String) : String :=
  ⟨trimChars s.data⟩

/-- Join a list of strings with a separator, embedding `sep.join(items)`. -/
def joinWith (sep : String) : List String → String
  | [] => ""
  | [s] => s
  | s :: rest => s ++ sep ++ joinWith sep rest

deriving instance DecidableEq for Except

namespace QueryRewriting

/-- One decomposed, categorized unit of the original query: the pair
`{category, text}` produced by the decomposition step. -/
structure SubQuestion where
  category : String
  text : String
deriving DecidableEq

/-- Error taxonomy of the pipeline: `decompositionFormat` carries the item
that failed to parse, `unknownCategory` carries the offending category
token. -/
inductive PipelineError where
  | decompositionFormat (item : String) : PipelineError
  | unknownCategory (category : String) : PipelineError
deriving DecidableEq

/-- Modelled from the spec: the parsing of one item of the decomposition
completion output (the body of `decompose` lives in `util/query_engines.py`,
which is not part of the sources here).  Per the spec, strip a leading
character, split once on the first `]` into `(category_token, question_text)`,
and fail with a `DecompositionFormatError` when there is no `]`, the category
token is empty, or the question text is empty after trimming. -/
def parseItem (item : List Char) : Except PipelineError SubQuestion :=
  match splitOnce ']' (item.drop 1) with
  | none => .error (.decompositionFormat ⟨item⟩)
  | some (catTok, qText) =>
    if catTok.isEmpty then .error (.decompositionFormat ⟨item⟩)
    else if (trimChars qText).isEmpty then .error (.decompositionFormat ⟨item⟩)
    else .ok ⟨⟨catTok⟩, ⟨qText⟩⟩

/-- Modelled from the spec: parse every item of the comma-split completion
output, failing on the first malformed item. -/
def parseItems : List (List Char) → Except PipelineError (List SubQuestion)
  | [] => .ok []
  | it :: rest =>
    match parseItem it with
    | .error e => .error e
    | .ok sq =>
      match parseItems rest with
      | .error e => .error e
      | .ok sqs => .ok (sq :: sqs)

/-- Modelled from the spec: the full parsing step of `decompose` applied to
the raw completion output: split on `,`, then parse each item. -/
def parseDecomposition (raw : String) : Except PipelineError (List SubQuestion) :=
  parseItems (splitChar ',' raw.data)

/-- The failure condition the spec states for one item: after stripping a
leading character, either there is no `]` separator, or the category token is
empty, or the question text is empty after trimming. -/
def malformedItem (item : List Char) : Bool :=
  match splitOnce ']' (item.drop 1) with
  | none => true
  | some (catTok, qText) => catTok.isEmpty || (trimChars qText).isEmpty

/-- A ranked context fragment returned by a retriever. -/
structure Fragment where
  content : String
  score : Int
  id : String

/-- A retrieval capability: a query in, an ordered sequence of context
fragments out. -/
def Retriever : Type := String → List Fragment

/-- The configuration of the Rewrite-Retrieve-Read query engine, mirroring
the constructor arguments passed in the notebook: categories, descriptions,
the category-to-retriever registry, the completion capability and the
verbosity flag. -/
structure RewriteRetrieveReadQueryEngine where
  categories : List String
  descriptions : List String
  retrievers : List (String × Retriever)
  llm : String → String
  verbose : Bool

/-- The REWRITE_PROMPT template of the notebook, applied to the raw query and
the category/description table. -/
def rewritePrompt (queryStr catsWithDescs : String) : String :=
  "You\u0027re a helpful AI assistant that helps people learn about different topics. \nGiven the following query: \n-----------------------------------\n"
    ++ queryStr
    ++ ",\n-----------------------------------\n\nExtract each question from the query and categorize it into one of the following categories separated into key and description pairs:\n-----------------------------------\n"
    ++ catsWithDescs
    ++ "\n-----------------------------------\n\nYour output should a comma separated list of questions with their corresponding category prepended in square brackets.\nExample: \n-----------------------------------\n\"What is the capital of France? And who is Prince\" -> \"[Geography]What is the capital of France?,[People]Who is Prince?\"\n-----------------------------------\nAnswer:\n"

/-- The VALIDATE_AND_MERGE template of the notebook, applied to the original
query and the newline-joined answer block. -/
def validateAndMergePrompt (queryStry answers : String) : String :=
  "You are a helpful AI assistant that validates, corrects and combines information in answers to a query\nQuery:\n-----------------------------------\n"
    ++ queryStry
    ++ "\n-----------------------------------\n\nAnswers:\n-----------------------------------\n"
    ++ answers
    ++ "\n-----------------------------------\n\nValidate, correct and combine the answers to provide a single coherent response.\nAnswer:    \n"

/-- Modelled from the spec: the category/description table embedded into the
decomposition prompt (the formatting code lives in `util/query_engines.py`,
which is not part of the sources here). -/
def categoriesWithDescriptions (eng : RewriteRetrieveReadQueryEngine) : String :=
  joinWith "\n" (List.zipWith (fun c d => c ++ ": " ++ d) eng.categories eng.descriptions)

/-- Modelled from the spec: `route` is a pure lookup against the immutable
registry, failing with `UnknownCategoryError` carrying the offending category
token when the category has no registered retriever. -/
def route (retrievers : List (String × Retriever)) (category : String) :
    Except PipelineError Retriever :=
  match retrievers.lookup category with
  | some r => .ok r
  | none => .error (.unknownCategory category)

/-- Modelled from the spec: the fixed question/context completion prompt of
the SubQuestionAnswerer (its exact text lives in `util/query_engines.py`,
which is not part of the sources here). -/
def answerPrompt (question context : String) : String :=
  "Answer the question given the context.\nContext:\n" ++ context
    ++ "\nQuestion:\n" ++ question ++ "\nAnswer:\n"

/-- Modelled from the spec: the retrieved context of a sub-question is the
concatenation of the fragment contents, order preserved, with a simple
separator. -/
def retrievedContext (r : Retriever) (q : String) : String :=
  joinWith "\n\n" ((r q).map Fragment.content)

/-- Modelled from the spec: answer one sub-question by routing its category,
retrieving context for its text, and issuing one completion call, returning
the completion output trimmed. -/
def answerSubQuestion (eng : RewriteRetrieveReadQueryEngine) (sq : SubQuestion) :
    Except PipelineError String :=
  match route eng.retrievers sq.category with
  | .error e => .error e
  | .ok r => .ok (trimString (eng.llm (answerPrompt sq.text (retrievedContext r sq.text))))

/-- Modelled from the spec: answer every sub-question in decomposition order,
surfacing the first error. -/
def answerAll (eng : RewriteRetrieveReadQueryEngine) :
    List SubQuestion → Except PipelineError (List String)
  | [] => .ok []
  | sq :: tl =>
    match answerSubQuestion eng sq with
    | .error e => .error e
    | .ok a =>
      match answerAll eng tl with
      | .error e => .error e
      | .ok rest => .ok (a :: rest)

/-- Modelled from the spec: `merge` joins the answers with newline
separators, embeds them with the original query into the single
validate-and-combine completion prompt, and returns the completion result
trimmed. -/
def merge (eng : RewriteRetrieveReadQueryEngine) (queryStr : String)
    (answers : List String) : String :=
  trimString (eng.llm (validateAndMergePrompt queryStr (joinWith "\n" answers)))

/-- Modelled from the spec: the four-stage pipeline of `query(...)`:
decompose, route-and-answer each sub-question, merge.  Every stage error is
surfaced to the caller. -/
def runQuery (eng : RewriteRetrieveReadQueryEngine) (queryStr : String) :
    Except PipelineError String :=
  match parseDecomposition (eng.llm (rewritePrompt queryStr (categoriesWithDescriptions eng))) with
  | .error e => .error e
  | .ok sqs =>
    match answerAll eng sqs with
    | .error e => .error e
    | .ok answers => .ok (merge eng queryStr answers)

/-- One structured trace record of the verbose mode: question, category,
retrieved context, raw answer. -/
structure TraceRecord where
  question : String
  category : String
  context : String
  rawAnswer : String
deriving DecidableEq

/-- Modelled from the spec: answering one sub-question while emitting the
per-step trace record when verbose mode is enabled. -/
def answerSubQuestionTraced (eng : RewriteRetrieveReadQueryEngine) (sq : SubQuestion) :
    Except PipelineError (String × List TraceRecord) :=
  match route eng.retrievers sq.category with
  | .error e => .error e
  | .ok r =>
    let ctx := retrievedContext r sq.text
    let raw := eng.llm (answerPrompt sq.text ctx)
    .ok (trimString raw, if eng.verbose then [⟨sq.text, sq.category, ctx, raw⟩] else [])

/-- Modelled from the spec: the traced per-sub-question stage over a list of
sub-questions, accumulating trace records in order. -/
def answerAllTraced (eng : RewriteRetrieveReadQueryEngine) :
    List SubQuestion → Except PipelineError (List String × List TraceRecord)
  | [] => .ok ([], [])
  | sq :: tl =>
    match answerSubQuestionTraced eng sq with
    | .error e => .error e
    | .ok (a, tr) =>
      match answerAllTraced eng tl with
      | .error e => .error e
      | .ok (restA, restT) => .ok (a :: restA, tr ++ restT)

/-- Modelled from the spec: the pipeline together with its emitted trace,
returned alongside the result. -/
def runQueryTraced (eng : RewriteRetrieveReadQueryEngine) (queryStr : String) :
    Except PipelineError String × List TraceRecord :=
  match parseDecomposition (eng.llm (rewritePrompt queryStr (categoriesWithDescriptions eng))) with
  | .error e => (.error e, [])
  | .ok sqs =>
    match answerAllTraced eng sqs with
    | .error e => (.error e, [])
    | .ok (answers, tr) => (.ok (merge eng queryStr answers), tr)

/-- Projection of a traced stage result onto the answer component. -/
def projAnswer {ε α τ : Type} : Except ε (α × τ) → Except ε α
  | .error e => .error e
  | .ok (a, _) => .ok a

/-- Concurrency model of the per-sub-question stage: a pre-sized answer array
written by position.  `writeResults f sched acc` runs the tasks in completion
order `sched`, each task `i` writing its deterministic result `f i` at
position `i`. -/
def writeResults {α : Type} (f : Nat → α) : List Nat → List (Option α) → List (Option α)
  | [], acc => acc
  | i :: rest, acc => writeResults f rest (acc.set i (some (f i)))

/-- Concurrency model: run `n` tasks under completion order `sched` into a
pre-sized result list initialised with `none`. -/
def runConcurrently {α : Type} (f : Nat → α) (n : Nat) (sched : List Nat) :
    List (Option α) :=
  writeResults f sched (List.replicate n none)

/-- A concrete retriever used for concrete evaluations of the pipeline. -/
def testRetriever : Retriever :=
  fun _ => [⟨"Vincent van Gogh was a Dutch Post-Impressionist painter.", 2, "frag-1"⟩]

/-- A concrete completion capability whose decomposition output is a single
well-formed item. -/
def testLlm : String → String :=
  fun _ => "[VAN_GOGH]Who is Vincent van Gogh?"

/-- A concrete engine configuration mirroring the notebook wiring. -/
def testEngine : RewriteRetrieveReadQueryEngine :=
  { categories := ["VAN_GOGH", "AMSTERDAM"]
    descriptions := ["Questions about Vincent van Gogh", "Questions about Amsterdam"]
    retrievers := [("VAN_GOGH", testRetriever), ("AMSTERDAM", fun _ => [])]
    llm := testLlm
    verbose := true }

/-- The concrete engine with the same completion capability but otherwise
different configuration, used to evaluate configuration independence. -/
def testEngineAlt : RewriteRetrieveReadQueryEngine :=
  { categories := ["AMSTERDAM"]
    descriptions := ["Questions about Amsterdam"]
    retrievers := [("AMSTERDAM", fun _ => [])]
    llm := testLlm
    verbose := false }

/-- A concrete two-element sub-question list used for concrete evaluations of
the concurrent per-sub-question stage. -/
def testSubQuestions : List SubQuestion :=
  [⟨"VAN_GOGH", "Who is Vincent van Gogh?"⟩,
   ⟨"AMSTERDAM", "What is Amsterdam famous for?"⟩]

/-- A concrete engine whose completion capability produces a malformed
decomposition output. -/
def testEngineBad : RewriteRetrieveReadQueryEngine :=
  { categories := ["VAN_GOGH", "AMSTERDAM"]
    descriptions := ["Questions about Vincent van Gogh", "Questions about Amsterdam"]
    retrievers := [("VAN_GOGH", testRetriever), ("AMSTERDAM", fun _ => [])]
    llm := fun _ => "no brackets here"
    verbose := false }

end QueryRewriting

namespace Retrieval

/-- A text node produced by the sentence splitter: a stable node id plus its
text. -/
structure TextNode where
  node_id : String
  text : String
deriving DecidableEq

/-- An index node: the node fields plus an `index_id` reference naming the
node it resolves to. -/
structure IndexNode where
  node_id : String
  text : String
  index_id : String
deriving DecidableEq

/-- Embedding of `IndexNode.from_text_node(node, index_id)`: copy the node
fields and set the reference `index_id`. -/
def IndexNode.from_text_node (n : TextNode) (idx : String) : IndexNode :=
  ⟨n.node_id, n.text, idx⟩

/-- An abstract sentence splitter, the external capability
`SentenceSplitter(...).get_nodes_from_documents([node])`: one node in, its
sub-nodes out. -/
def Splitter : Type := TextNode → List TextNode

/-- The inner loop of the chunk-reference construction of the notebook: for
one base node, the sub-nodes of every splitter, each converted by
`IndexNode.from_text_node(sn, base_node.node_id)`. -/
def subIndexNodes (splitters : List Splitter) (base_node : TextNode) : List IndexNode :=
  match splitters with
  | [] => []
  | p :: rest =>
    (p base_node).map (fun sn => IndexNode.from_text_node sn base_node.node_id)
      ++ subIndexNodes rest base_node

/-- Embedding of the `all_nodes` construction loop of the notebook: for every
base node, extend with the sub-chunk IndexNodes of every splitter, then also
append the base node itself converted to an IndexNode with its own node id as
`index_id`. -/
def buildAllNodes (splitters : List Splitter) : List TextNode → List IndexNode
  | [] => []
  | b :: rest =>
    (subIndexNodes splitters b ++ [IndexNode.from_text_node b b.node_id])
      ++ buildAllNodes splitters rest

/-- Concrete base nodes used for concrete evaluations. -/
def testBaseNodes : List TextNode :=
  [⟨"node-0", "alpha beta"⟩, ⟨"node-1", "gamma"⟩]

/-- A concrete splitter used for concrete evaluations. -/
def testSplitters : List Splitter :=
  [fun n => [⟨n.node_id ++ "-sub-0", n.text⟩]]

end Retrieval

namespace MetaJson

/-- JSON values, the data `json.dump` and `json.load` exchange.  JSON
numbers are embedded as integers; floating point values are outside this
shallow embedding.  An object is the association list of a Python dict. -/
inductive JVal where
  | null : JVal
  | bool (b : Bool) : JVal
  | num (n : Int) : JVal
  | str (s : String) : JVal
  | arr (elems : List JVal) : JVal
  | obj (members : List (String × JVal)) : JVal

/-- The four lowercase hex digits of a code unit, as in a `\uXXXX` escape. -/
def hex4 (n : Nat) : List Char :=
  [Nat.digitChar (n / 4096 % 16), Nat.digitChar (n / 256 % 16),
   Nat.digitChar (n / 16 % 16), Nat.digitChar (n % 16)]

/-- Embedding of the character escaping of `json.dump` with its default
`ensure_ascii=True`: short escapes for the common control characters, `\u`
escapes for all other characters outside printable ASCII, and surrogate
pairs for characters beyond the basic multilingual plane. -/
def escapeChar (c : Char) : List Char :=
  if c = '"' then ['\\', '"']
  else if c = '\\' then ['\\', '\\']
  else if c = '\n' then ['\\', 'n']
  else if c = '\t' then ['\\', 't']
  else if c = '\r' then ['\\', 'r']
  else if c = '\x08' then ['\\', 'b']
  else if c = '\x0c' then ['\\', 'f']
  else if 0x20 ≤ c.toNat ∧ c.toNat ≤ 0x7e then [c]
  else if c.toNat < 0x10000 then '\\' :: 'u' :: hex4 c.toNat
  else
    ('\\' :: 'u' :: hex4 (0xd800 + (c.toNat - 0x10000) / 0x400))
      ++ ('\\' :: 'u' :: hex4 (0xdc00 + (c.toNat - 0x10000) % 0x400))

/-- Escape every character of a string body. -/
def escapeChars : List Char → List Char
  | [] => []
  | c :: cs => escapeChar c ++ escapeChars cs

/-- Decimal digits of a natural number, most significant first, with
explicit fuel so that the definition evaluates inside the kernel. -/
def natCharsAux : Nat → Nat → List Char
  | 0, _ => []
  | _ + 1, 0 => []
  | fuel + 1, n + 1 => natCharsAux fuel ((n + 1) / 10) ++ [Nat.digitChar ((n + 1) % 10)]

/-- Decimal representation of a natural number. -/
def natChars (n : Nat) : List Char :=
  if n = 0 then ['0'] else natCharsAux n n

/-- Decimal representation of an integer, as `json.dump` prints it. -/
def printInt (i : Int) : List Char :=
  if i < 0 then '-' :: natChars i.natAbs else natChars i.natAbs

mutual

/-- Embedding of the serialization of `json.dump` with its default
separators: `", "` between items and `": "` after a key. -/
def printVal : JVal → List Char
  | .null => 'n' :: ['u', 'l', 'l']
  | .bool true => 't' :: ['r', 'u', 'e']
  | .bool false => 'f' :: ['a', 'l', 's', 'e']
  | .num i => printInt i
  | .str s => '"' :: (escapeChars s.data ++ ['"'])
  | .arr es => '[' :: (printElems es ++ [']'])
  | .obj ms => '{' :: (printMembers ms ++ ['}'])

/-- Serialization of the items of an array. -/
def printElems : List JVal → List Char
  | [] => []
  | [e] => printVal e
  | e :: rest => printVal e ++ ',' :: ' ' :: printElems rest

/-- Serialization of the members of an object. -/
def printMembers : List (String × JVal) → List Char
  | [] => []
  | [(k, v)] => '"' :: (escapeChars k.data ++ '"' :: ':' :: ' ' :: printVal v)
  | (k, v) :: rest =>
    ('"' :: (escapeChars k.data ++ '"' :: ':' :: ' ' :: printVal v))
      ++ ',' :: ' ' :: printMembers rest

end

/-- Embedding of `json.dumps`. -/
def dumps (v : JVal) : String := ⟨printVal v⟩

/-- The value of a hex digit, accepting both cases, as `json.load` does. -/
def hexVal (c : Char) : Option Nat :=
  if '0' ≤ c ∧ c ≤ '9' then some (c.toNat - 48)
  else if 'a' ≤ c ∧ c ≤ 'f' then some (c.toNat - 87)
  else if 'A' ≤ c ∧ c ≤ 'F' then some (c.toNat - 55)
  else none

/-- The value of a decimal digit. -/
def digitVal (c : Char) : Nat := c.toNat - 48

/-- Read a maximal run of decimal digits from the input. -/
def readDigits : List Char → List Nat × List Char
  | [] => ([], [])
  | c :: cs =>
    if c.isDigit then
      let p := readDigits cs
      (digitVal c :: p.1, p.2)
    else ([], c :: cs)

/-- Embedding of the string-body scanning of `json.load`, entered after the
opening quote: plain characters, short escapes, `\u` escapes, and surrogate
pairs recombined into one character.  The fuel argument bounds the number of
characters produced, keeping the definition kernel-evaluable. -/
def parseStrF : Nat → List Char → Option (List Char × List Char)
  | 0, _ => none
  | _ + 1, [] => none
  | fuel + 1, c :: rest =>
    if c = '"' then some ([], rest)
    else if c = '\\' then
      match rest with
      | [] => none
      | e :: r2 =>
        if e = '"' then
          match parseStrF fuel r2 with
          | some p => some ('"' :: p.1, p.2)
          | none => none
        else if e = '\\' then
          match parseStrF fuel r2 with
          | some p => some ('\\' :: p.1, p.2)
          | none => none
        else if e = '/' then
          match parseStrF fuel r2 with
          | some p => some ('/' :: p.1, p.2)
          | none => none
        else if e = 'n' then
          match parseStrF fuel r2 with
          | some p => some ('\n' :: p.1, p.2)
          | none => none
        else if e = 't' then
          match parseStrF fuel r2 with
          | some p => some ('\t' :: p.1, p.2)
          | none => none
        else if e = 'r' then
          match parseStrF fuel r2 with
          | some p => some ('\r' :: p.1, p.2)
          | none => none
        else if e = 'b' then
          match parseStrF fuel r2 with
          | some p => some ('\x08' :: p.1, p.2)
          | none => none
        else if e = 'f' then
          match parseStrF fuel r2 with
          | some p => some ('\x0c' :: p.1, p.2)
          | none => none
        else if e = 'u' then
          match r2 with
          | h1 :: h2 :: h3 :: h4 :: r3 =>
            match hexVal h1, hexVal h2, hexVal h3, hexVal h4 with
            | some a, some b, some c2, some d =>
              if a * 4096 + b * 256 + c2 * 16 + d < 0xd800 ∨
                  0xdfff < a * 4096 + b * 256 + c2 * 16 + d then
                match parseStrF fuel r3 with
                | some p => some (Char.ofNat (a * 4096 + b * 256 + c2 * 16 + d) :: p.1, p.2)
                | none => none
              else if a * 4096 + b * 256 + c2 * 16 + d ≤ 0xdbff then
                match r3 with
                | b1 :: b2 :: g1 :: g2 :: g3 :: g4 :: r4 =>
                  if b1 = '\\' ∧ b2 = 'u' then
                    match hexVal g1, hexVal g2, hexVal g3, hexVal g4 with
                    | some a2, some b3, some c3, some d2 =>
                      if 0xdc00 ≤ a2 * 4096 + b3 * 256 + c3 * 16 + d2 ∧
                          a2 * 4096 + b3 * 256 + c3 * 16 + d2 ≤ 0xdfff then
                        match parseStrF fuel r4 with
                        | some p =>
                          some (Char.ofNat (0x10000 +
                            (a * 4096 + b * 256 + c2 * 16 + d - 0xd800) * 0x400 +
                            (a2 * 4096 + b3 * 256 + c3 * 16 + d2 - 0xdc00)) :: p.1, p.2)
                        | none => none
                      else none
                    | _, _, _, _ => none
                  else none
                | _ => none
              else none
            | _, _, _, _ => none
          | _ => none
        else none
    else
      match parseStrF fuel rest with
      | some p => some (c :: p.1, p.2)
      | none => none

/-- Parser modes: a value, the tail of an array, the tail of an object. -/
inductive PMode where
  | pv : PMode
  | pe : PMode
  | pm : PMode

/-- One step of the value grammar of `json.load` on the textual format
`json.dump` emits, parameterized by the recursive entry `rec`. -/
def parseValStep (rec : PMode → List Char → Option (JVal × List Char)) :
    List Char → Option (JVal × List Char)
  | [] => none
  | c :: rest =>
    if c = 'n' then
      match rest with
      | 'u' :: 'l' :: 'l' :: r => some (.null, r)
      | _ => none
    else if c = 't' then
      match rest with
      | 'r' :: 'u' :: 'e' :: r => some (.bool true, r)
      | _ => none
    else if c = 'f' then
      match rest with
      | 'a' :: 'l' :: 's' :: 'e' :: r => some (.bool false, r)
      | _ => none
    else if c = '"' then
      match parseStrF (rest.length + 1) rest with
      | some (s, r) => some (.str ⟨s⟩, r)
      | none => none
    else if c = '[' then
      match rest with
      | [] => none
      | c2 :: r2 =>
        if c2 = ']' then some (.arr [], r2)
        else
          match rec .pe (c2 :: r2) with
          | some (.arr es, r3) => some (.arr es, r3)
          | _ => none
    else if c = '{' then
      match rest with
      | [] => none
      | c2 :: r2 =>
        if c2 = '}' then some (.obj [], r2)
        else
          match rec .pm (c2 :: r2) with
          | some (.obj ms, r3) => some (.obj ms, r3)
          | _ => none
    else if c = '-' then
      match readDigits rest with
      | (d :: ds, r) => some (.num (-(Int.ofNat (Nat.ofDigits 10 (d :: ds).reverse))), r)
      | _ => none
    else if c.isDigit then
      match readDigits (c :: rest) with
      | (d :: ds, r) => some (.num (Int.ofNat (Nat.ofDigits 10 (d :: ds).reverse)), r)
      | _ => none
    else none

/-- One step of the array-tail grammar: an element, then either the closing
bracket or a comma (with the optional space `json.dump` emits) and the rest
of the array. -/
def parseElemsStep (rec : PMode → List Char → Option (JVal × List Char))
    (l : List Char) : Option (JVal × List Char) :=
  match rec .pv l with
  | none => none
  | some (v, r) =>
    match r with
    | ']' :: r2 => some (.arr [v], r2)
    | ',' :: ' ' :: r2 =>
      (match rec .pe r2 with
       | some (.arr vs, r3) => some (.arr (v :: vs), r3)
       | _ => none)
    | ',' :: r2 =>
      (match rec .pe r2 with
       | some (.arr vs, r3) => some (.arr (v :: vs), r3)
       | _ => none)
    | _ => none

/-- One step of the object-tail grammar: a quoted key, a colon (with the
optional space `json.dump` emits), a value, then either the closing brace or
a comma and the rest of the object. -/
def parseMembersStep (rec : PMode → List Char → Option (JVal × List Char))
    (l : List Char) : Option (JVal × List Char) :=
  match l with
  | '"' :: r =>
    (match parseStrF (r.length + 1) r with
     | some (k, r2) =>
       (match r2 with
        | ':' :: ' ' :: r3 =>
          (match rec .pv r3 with
           | some (v, r4) =>
             (match r4 with
              | '}' :: r5 => some (.obj [(⟨k⟩, v)], r5)
              | ',' :: ' ' :: r5 =>
                (match rec .pm r5 with
                 | some (.obj ms, r6) => some (.obj ((⟨k⟩, v) :: ms), r6)
                 | _ => none)
              | ',' :: r5 =>
                (match rec .pm r5 with
                 | some (.obj ms, r6) => some (.obj ((⟨k⟩, v) :: ms), r6)
                 | _ => none)
              | _ => none)
           | none => none)
        | ':' :: r3 =>
          (match rec .pv r3 with
           | some (v, r4) =>
             (match r4 with
              | '}' :: r5 => some (.obj [(⟨k⟩, v)], r5)
              | ',' :: ' ' :: r5 =>
                (match rec .pm r5 with
                 | some (.obj ms, r6) => some (.obj ((⟨k⟩, v) :: ms), r6)
                 | _ => none)
              | ',' :: r5 =>
                (match rec .pm r5 with
                 | some (.obj ms, r6) => some (.obj ((⟨k⟩, v) :: ms), r6)
                 | _ => none)
              | _ => none)
           | none => none)
        | _ => none)
     | none => none)
  | _ => none

/-- The recursive parser: fuel-indexed mutual recursion over the three
grammar modes. -/
def parseF : Nat → PMode → List Char → Option (JVal × List Char)
  | 0, _, _ => none
  | fuel + 1, .pv, l => parseValStep (parseF fuel) l
  | fuel + 1, .pe, l => parseElemsStep (parseF fuel) l
  | fuel + 1, .pm, l => parseMembersStep (parseF fuel) l

/-- Embedding of `json.loads`: parse one value and require the whole input
to be consumed. -/
def loads (s : String) : Option JVal :=
  match parseF (s.data.length + 1) .pv s.data with
  | some (v, []) => some v
  | _ => none


/-- The continuation after a printed number never begins with a digit. -/
def nonDigitHead : List Char → Prop
  | [] => True
  | c :: _ => c.isDigit = false

mutual

/-- Fuel sufficient for `parseF` to parse the printed form of a value. -/
def fuelNeed : JVal → Nat
  | .arr es => match es with | [] => 1 | _ :: _ => 1 + fuelNeedEs es
  | .obj ms => match ms with | [] => 1 | _ :: _ => 1 + fuelNeedMs ms
  | _ => 1

/-- Fuel sufficient for the array-tail mode. -/
def fuelNeedEs : List JVal → Nat
  | [] => 0
  | e :: rest => 1 + max (fuelNeed e) (fuelNeedEs rest)

/-- Fuel sufficient for the object-tail mode. -/
def fuelNeedMs : List (String × JVal) → Nat
  | [] => 0
  | m :: rest => 1 + max (fuelNeed m.2) (fuelNeedMs rest)

end

/-- Big-endian decimal digits of a natural number. -/
def natDigitsBE (n : Nat) : List Nat :=
  if n = 0 then [0] else (Nat.digits 10 n).reverse

/-- Embedding of `save_metadata_dicts(path, data)` of the retrieval
notebook: serialize the dictionary with `json.dump` and write the result to
the file at `path`; the file system is embedded as an association of paths to
file contents. -/
def save_metadata_dicts (path : String) (data : List (String × JVal))
    (fs : List (String × String)) : List (String × String) :=
  (path, dumps (.obj data)) :: fs

/-- Embedding of `load_metadata_dicts(path)` of the retrieval notebook:
read the file at `path` and parse it with `json.load`. -/
def load_metadata_dicts (path : String) (fs : List (String × String)) : Option JVal :=
  match fs.lookup path with
  | some raw => loads raw
  | none => none

end MetaJson



namespace QueryRewriting

theorem parseItem_error_shape (it : List Char) (e : PipelineError)
    (h : parseItem it = .error e) : ∃ s, e = .decompositionFormat s := by
  unfold parseItem at h
  cases h2 : splitOnce ']' (it.drop 1) with
  | none => rw [h2] at h; cases h; exact ⟨_, rfl⟩
  | some p =>
    rw [h2] at h
    obtain ⟨a, b⟩ := p
    by_cases ha : a.isEmpty <;> by_cases hb : (trimChars b).isEmpty <;>
      simp [ha, hb] at h
    · exact ⟨_, h.symm⟩
    · exact ⟨_, h.symm⟩
    · exact ⟨_, h.symm⟩

theorem parseItem_error_iff (it : List Char) :
    (∃ s, parseItem it = .error (.decompositionFormat s)) ↔ malformedItem it = true := by
  unfold parseItem malformedItem
  cases h : splitOnce ']' (it.drop 1) with
  | none => simp
  | some p =>
    obtain ⟨catTok, qText⟩ := p
    by_cases h1 : catTok.isEmpty <;> by_cases h2 : (trimChars qText).isEmpty <;>
      simp [h1, h2]

theorem parseItem_ok_of_not_malformed (it : List Char) (h : malformedItem it = false) :
    ∃ sq, parseItem it = .ok sq := by
  unfold parseItem
  unfold malformedItem at h
  cases hs : splitOnce ']' (it.drop 1) with
  | none => rw [hs] at h; simp at h
  | some p =>
    obtain ⟨catTok, qText⟩ := p
    rw [hs] at h
    simp only [Bool.or_eq_false_iff] at h
    simp [h.1, h.2]

theorem parseItems_error_iff (items : List (List Char)) :
    (∃ s, parseItems items = .error (.decompositionFormat s)) ↔
      ∃ it ∈ items, malformedItem it = true := by
  induction items with
  | nil => simp [parseItems]
  | cons it rest ih =>
    constructor
    · intro ⟨s, hs⟩
      unfold parseItems at hs
      cases hit : parseItem it with
      | error e =>
        rw [hit] at hs
        cases hs
        refine ⟨it, by simp, ?_⟩
        rw [← parseItem_error_iff]
        exact ⟨s, hit⟩
      | ok sq =>
        rw [hit] at hs
        cases hrest : parseItems rest with
        | error e =>
          rw [hrest] at hs
          cases hs
          obtain ⟨it', hmem, hbad⟩ := ih.mp ⟨s, hrest⟩
          exact ⟨it', by simp [hmem], hbad⟩
        | ok sqs => rw [hrest] at hs; cases hs
    · intro ⟨it', hmem, hbad⟩
      rcases List.mem_cons.mp hmem with heq | hmem'
      · subst heq
        obtain ⟨s, hs⟩ := (parseItem_error_iff it').mpr hbad
        exact ⟨s, by unfold parseItems; rw [hs]⟩
      · cases hit : parseItem it with
        | error e =>
          obtain ⟨s, hse⟩ := parseItem_error_shape it e hit
          subst hse
          exact ⟨s, by unfold parseItems; rw [hit]⟩
        | ok sq =>
          obtain ⟨s, hs⟩ := ih.mpr ⟨it', hmem', hbad⟩
          exact ⟨s, by unfold parseItems; rw [hit, hs]⟩

/-- Claim C1: the decomposition completion output is parsed by splitting on
`,`, stripping a leading character from each item and splitting the item once
at the first `]`; a `DecompositionFormatError` is raised exactly when some
item lacks a `]` separator, has an empty category token, or has a question
text that is empty after trimming; in particular the raw output
"no brackets here" raises a `DecompositionFormatError`. -/
theorem decomposition_error_characterization :
    (∀ raw : String,
      (∃ s, parseDecomposition raw = .error (.decompositionFormat s)) ↔
        ∃ it ∈ splitChar ',' raw.data, malformedItem it = true) ∧
    (∃ s, parseDecomposition "no brackets here" = .error (.decompositionFormat s)) := by
  constructor
  · intro raw
    exact parseItems_error_iff (splitChar ',' raw.data)
  · exact ⟨"no brackets here", by decide⟩

/-- Claim C8: the raw decomposition output
"[VAN_GOGH]Who is Vincent van Gogh?,[AMSTERDAM]What is Amsterdam famous for?"
parses into exactly the two expected sub-questions, in order. -/
theorem decomposition_scenario_two_subquestions :
    parseDecomposition
        "[VAN_GOGH]Who is Vincent van Gogh?,[AMSTERDAM]What is Amsterdam famous for?" =
      .ok [⟨"VAN_GOGH", "Who is Vincent van Gogh?"⟩,
           ⟨"AMSTERDAM", "What is Amsterdam famous for?"⟩] := by
  decide


theorem lookup_some_of_mem_keys {beta : Type} :
    ∀ (l : List (String × beta)) (k : String), k ∈ l.map Prod.fst → ∃ v, l.lookup k = some v := by
  intro l
  induction l with
  | nil => intro k h; simp at h
  | cons p tl ih =>
    intro k h
    obtain ⟨a, b⟩ := p
    by_cases hk : k = a
    · subst hk
      exact ⟨b, by simp [List.lookup]⟩
    · have hmem : k ∈ tl.map Prod.fst := by
        simp only [List.map_cons, List.mem_cons] at h
        rcases h with h | h
        · exact absurd h hk
        · exact h
      obtain ⟨v, hv⟩ := ih k hmem
      refine ⟨v, ?_⟩
      simp only [List.lookup]
      rw [beq_eq_false_iff_ne.mpr hk]
      exact hv

theorem lookup_none_of_not_mem_keys {beta : Type} :
    ∀ (l : List (String × beta)) (k : String), k ∉ l.map Prod.fst → l.lookup k = none := by
  intro l
  induction l with
  | nil => intro k _; rfl
  | cons p tl ih =>
    intro k h
    obtain ⟨a, b⟩ := p
    simp only [List.map_cons, List.mem_cons] at h
    push_neg at h
    simp only [List.lookup]
    rw [beq_eq_false_iff_ne.mpr h.1]
    exact ih k h.2

/-- Claim C2: for every category, `route` either returns the retriever
registered in the registry under exactly that category string, or raises
`UnknownCategoryError` carrying that category; a registered category is
always found and a missing category is always a routing error, never a
silent fallback or skip. -/
theorem route_exact_match_or_unknown_category :
    ∀ (retrievers : List (String × Retriever)) (category : String),
      (∀ e, route retrievers category = .error e → e = .unknownCategory category) ∧
      (∀ r, route retrievers category = .ok r → retrievers.lookup category = some r) ∧
      (category ∈ retrievers.map Prod.fst → ∃ r, route retrievers category = .ok r) ∧
      (category ∉ retrievers.map Prod.fst →
        route retrievers category = .error (.unknownCategory category)) := by
  intro rs cat
  refine ⟨?_, ?_, ?_, ?_⟩
  · intro e he
    unfold route at he
    cases h : rs.lookup cat with
    | some r => rw [h] at he; cases he
    | none => rw [h] at he; cases he; rfl
  · intro r hr
    unfold route at hr
    cases h : rs.lookup cat with
    | some r2 => rw [h] at hr; cases hr; rfl
    | none => rw [h] at hr; cases hr
  · intro hmem
    obtain ⟨v, hv⟩ := lookup_some_of_mem_keys rs cat hmem
    exact ⟨v, by unfold route; rw [hv]⟩
  · intro hnmem
    unfold route
    rw [lookup_none_of_not_mem_keys rs cat hnmem]

theorem route_exact_match_or_unknown_category_witness :
    route testEngine.retrievers "PARIS" = .error (.unknownCategory "PARIS") :=
  (route_exact_match_or_unknown_category testEngine.retrievers "PARIS").2.2.2 (by decide)

theorem writeResults_getElem? {α : Type} (f : Nat → α) :
    ∀ (sched : List Nat) (acc : List (Option α)) (j : Nat),
      (writeResults f sched acc)[j]? =
        if j ∈ sched ∧ j < acc.length then some (some (f j)) else acc[j]? := by
  intro sched
  induction sched with
  | nil => intro acc j; simp [writeResults]
  | cons i rest ih =>
    intro acc j
    simp only [writeResults]
    rw [ih]
    rw [List.length_set, List.getElem?_set]
    by_cases hjr : j ∈ rest <;> by_cases hj : j < acc.length <;> by_cases hij : i = j <;>
      simp_all [List.mem_cons, List.getElem?_eq_none, Nat.le_of_not_lt] <;>
      rw [if_neg (by omega)]

theorem runConcurrently_eq_of_perm {α : Type} (f : Nat → α) (n : Nat) (sched : List Nat)
    (h : sched.Perm (List.range n)) :
    runConcurrently f n sched = (List.range n).map (fun i => some (f i)) := by
  apply List.ext_getElem?
  intro j
  unfold runConcurrently
  rw [writeResults_getElem? f sched (List.replicate n none) j, List.length_replicate]
  by_cases hj : j < n
  · have hmem : j ∈ sched := h.mem_iff.mpr (List.mem_range.mpr hj)
    simp [hmem, hj, List.getElem?_map, List.getElem?_range hj]
  · have hnm : j ∉ sched := fun hc => hj (List.mem_range.mp (h.mem_iff.mp hc))
    have hlen : (List.range n).length ≤ j := by simpa using Nat.le_of_not_lt hj
    simp [hnm, hj, List.getElem?_replicate, List.getElem?_map, List.getElem?_eq_none hlen,
      List.getElem?_eq_none (by simpa using Nat.le_of_not_lt hj : (List.replicate n (none : Option α)).length ≤ j)]

theorem answerAll_ok_map (eng : RewriteRetrieveReadQueryEngine) :
    ∀ (sqs : List SubQuestion) (answers : List String),
      answerAll eng sqs = .ok answers →
      sqs.map (answerSubQuestion eng) = answers.map Except.ok := by
  intro sqs
  induction sqs with
  | nil =>
    intro answers h
    simp only [answerAll] at h
    cases h
    rfl
  | cons sq tl ih =>
    intro answers h
    unfold answerAll at h
    cases h1 : answerSubQuestion eng sq with
    | error e => rw [h1] at h; cases h
    | ok a =>
      rw [h1] at h
      cases h2 : answerAll eng tl with
      | error e => rw [h2] at h; cases h
      | ok rest =>
        rw [h2] at h
        cases h
        simp [List.map_cons, h1, ih rest h2]

theorem range_map_getD {beta gam : Type} (g : beta → gam) (d : beta) :
    ∀ (l : List beta), (List.range l.length).map (fun i => g (l.getD i d)) = l.map g := by
  intro l
  induction l with
  | nil => simp
  | cons x tl ih =>
    simp only [List.length_cons, List.range_succ_eq_map, List.map_cons, List.map_map]
    refine congrArg₂ _ rfl ?_
    rw [← ih]
    apply List.map_congr_left
    intro a _
    rfl

/-- Claim C3: under any completion order of the per-sub-question operations
(modelled as a permutation schedule writing each result at its own index into
a pre-sized list), the assembled answer list has one entry per sub-question
and its i-th entry is the answer produced for the i-th sub-question of the
decomposition, i.e. Merger input order equals Decomposer output order. -/
theorem concurrent_answers_preserve_decomposition_order
    (eng : RewriteRetrieveReadQueryEngine) (qs : List SubQuestion)
    (sched : List Nat) (answers : List String)
    (hsched : sched.Perm (List.range qs.length))
    (hans : answerAll eng qs = .ok answers) :
    runConcurrently (fun i => answerSubQuestion eng (qs.getD i ⟨"", ""⟩)) qs.length sched
      = answers.map (fun a => some (.ok a)) := by
  rw [runConcurrently_eq_of_perm _ _ _ hsched]
  have h1 : (List.range qs.length).map
        (fun i => some (answerSubQuestion eng (qs.getD i ⟨"", ""⟩)))
      = qs.map (fun q => some (answerSubQuestion eng q)) :=
    range_map_getD (fun q => some (answerSubQuestion eng q)) ⟨"", ""⟩ qs
  rw [h1]
  have h2 := answerAll_ok_map eng qs answers hans
  calc qs.map (fun q => some (answerSubQuestion eng q))
      = (qs.map (answerSubQuestion eng)).map some := by rw [List.map_map]; rfl
    _ = (answers.map Except.ok).map some := by rw [h2]
    _ = answers.map (fun a => some (.ok a)) := by rw [List.map_map]; rfl

theorem concurrent_answers_preserve_decomposition_order_witness :
    runConcurrently
        (fun i => answerSubQuestion testEngine (testSubQuestions.getD i ⟨"", ""⟩))
        testSubQuestions.length [1, 0]
      = [some (.ok "[VAN_GOGH]Who is Vincent van Gogh?"),
         some (.ok "[VAN_GOGH]Who is Vincent van Gogh?")] :=
  concurrent_answers_preserve_decomposition_order testEngine testSubQuestions [1, 0]
    ["[VAN_GOGH]Who is Vincent van Gogh?", "[VAN_GOGH]Who is Vincent van Gogh?"]
    (by decide) (by decide)

/-- Claim C4: the pipeline result on a successful run is the completion
output of the single validate-and-combine prompt built from the original
query and the newline-joined answer block, returned verbatim but trimmed of
leading and trailing whitespace. -/
theorem merge_embeds_joined_answers_and_returns_trimmed
    (eng : RewriteRetrieveReadQueryEngine) (queryStr : String)
    (sqs : List SubQuestion) (answers : List String)
    (hdec : parseDecomposition
        (eng.llm (rewritePrompt queryStr (categoriesWithDescriptions eng))) = .ok sqs)
    (hans : answerAll eng sqs = .ok answers) :
    runQuery eng queryStr =
      .ok (trimString (eng.llm (validateAndMergePrompt queryStr (joinWith "\n" answers)))) := by
  simp only [runQuery, hdec, hans, merge]

theorem merge_embeds_joined_answers_and_returns_trimmed_witness :
    runQuery testEngine "Who is Vincent van Gogh?" =
      .ok (trimString (testEngine.llm (validateAndMergePrompt "Who is Vincent van Gogh?"
        (joinWith "\n" ["[VAN_GOGH]Who is Vincent van Gogh?"])))) :=
  merge_embeds_joined_answers_and_returns_trimmed testEngine "Who is Vincent van Gogh?"
    [⟨"VAN_GOGH", "Who is Vincent van Gogh?"⟩] ["[VAN_GOGH]Who is Vincent van Gogh?"]
    (by decide) (by decide)

/-- Claim C5: when the decomposition completion output does not parse, the
whole query fails with that `DecompositionFormatError` surfaced to the
caller; more generally every stage error is surfaced to the immediate caller
of the pipeline, and a successful result presupposes that every stage
succeeded. -/
theorem pipeline_surfaces_errors_to_caller
    (eng : RewriteRetrieveReadQueryEngine) (queryStr : String) :
    (∀ e, parseDecomposition
        (eng.llm (rewritePrompt queryStr (categoriesWithDescriptions eng))) = .error e →
        runQuery eng queryStr = .error e) ∧
    (∀ sqs e, parseDecomposition
        (eng.llm (rewritePrompt queryStr (categoriesWithDescriptions eng))) = .ok sqs →
        answerAll eng sqs = .error e → runQuery eng queryStr = .error e) ∧
    (∀ res, runQuery eng queryStr = .ok res →
        ∃ sqs answers,
          parseDecomposition
            (eng.llm (rewritePrompt queryStr (categoriesWithDescriptions eng))) = .ok sqs ∧
          answerAll eng sqs = .ok answers ∧ res = merge eng queryStr answers) := by
  refine ⟨?_, ?_, ?_⟩
  · intro e he
    simp only [runQuery, he]
  · intro sqs e h1 h2
    simp only [runQuery, h1, h2]
  · intro res hres
    unfold runQuery at hres
    cases h1 : parseDecomposition
        (eng.llm (rewritePrompt queryStr (categoriesWithDescriptions eng))) with
    | error er => simp only [h1] at hres; cases hres
    | ok sqs =>
      simp only [h1] at hres
      cases h2 : answerAll eng sqs with
      | error er => simp only [h2] at hres; cases hres
      | ok answers =>
        simp only [h2] at hres
        cases hres
        exact ⟨sqs, answers, rfl, h2, rfl⟩

theorem pipeline_surfaces_errors_to_caller_witness :
    runQuery testEngineBad "Who is Vincent van Gogh?" =
      .error (.decompositionFormat "no brackets here") :=
  (pipeline_surfaces_errors_to_caller testEngineBad "Who is Vincent van Gogh?").1
    (.decompositionFormat "no brackets here") (by decide)

theorem answerSubQuestionTraced_proj (eng : RewriteRetrieveReadQueryEngine)
    (sq : SubQuestion) :
    projAnswer (answerSubQuestionTraced eng sq) = answerSubQuestion eng sq := by
  unfold answerSubQuestionTraced answerSubQuestion
  cases h : route eng.retrievers sq.category with
  | error e => rfl
  | ok r => rfl

theorem answerAllTraced_proj (eng : RewriteRetrieveReadQueryEngine) :
    ∀ sqs, projAnswer (answerAllTraced eng sqs) = answerAll eng sqs := by
  intro sqs
  induction sqs with
  | nil => rfl
  | cons sq tl ih =>
    unfold answerAllTraced answerAll
    cases h1 : answerSubQuestionTraced eng sq with
    | error e =>
      have h1b : answerSubQuestion eng sq = .error e := by
        rw [← answerSubQuestionTraced_proj, h1]; rfl
      rw [h1b]
      rfl
    | ok p =>
      obtain ⟨a, tr⟩ := p
      have h1b : answerSubQuestion eng sq = .ok a := by
        rw [← answerSubQuestionTraced_proj, h1]; rfl
      rw [h1b]
      cases h2 : answerAllTraced eng tl with
      | error e =>
        have h2b : answerAll eng tl = .error e := by rw [← ih, h2]; rfl
        rw [h2b]
        rfl
      | ok q =>
        obtain ⟨restA, restT⟩ := q
        have h2b : answerAll eng tl = .ok restA := by rw [← ih, h2]; rfl
        rw [h2b]
        rfl

theorem answerSubQuestion_ext (e1 e2 : RewriteRetrieveReadQueryEngine)
    (hr : e1.retrievers = e2.retrievers) (hl : e1.llm = e2.llm) (sq : SubQuestion) :
    answerSubQuestion e1 sq = answerSubQuestion e2 sq := by
  unfold answerSubQuestion
  rw [hr, hl]

theorem answerAll_ext (e1 e2 : RewriteRetrieveReadQueryEngine)
    (hr : e1.retrievers = e2.retrievers) (hl : e1.llm = e2.llm) :
    ∀ sqs, answerAll e1 sqs = answerAll e2 sqs := by
  intro sqs
  induction sqs with
  | nil => rfl
  | cons sq tl ih =>
    unfold answerAll
    rw [answerSubQuestion_ext e1 e2 hr hl sq, ih]

theorem runQuery_ext (e1 e2 : RewriteRetrieveReadQueryEngine)
    (hc : e1.categories = e2.categories) (hd : e1.descriptions = e2.descriptions)
    (hr : e1.retrievers = e2.retrievers) (hl : e1.llm = e2.llm) (queryStr : String) :
    runQuery e1 queryStr = runQuery e2 queryStr := by
  have hcd : categoriesWithDescriptions e1 = categoriesWithDescriptions e2 := by
    unfold categoriesWithDescriptions
    rw [hc, hd]
  have ha : answerAll e1 = answerAll e2 := funext (answerAll_ext e1 e2 hr hl)
  have hm : merge e1 = merge e2 := by
    funext q2 ans
    unfold merge
    rw [hl]
  unfold runQuery
  rw [hcd, hl, ha, hm]

/-- Claim C6: the per-step verbose trace is purely observational: the traced
pipeline returns the same result as the plain pipeline, and running the
engine with the verbose flag enabled and disabled yields the same final
response for every query and fixed external-capability behaviour. -/
theorem verbose_trace_never_affects_result
    (eng : RewriteRetrieveReadQueryEngine) (queryStr : String) :
    (runQueryTraced eng queryStr).1 = runQuery eng queryStr ∧
    (runQueryTraced { eng with verbose := true } queryStr).1 =
      (runQueryTraced { eng with verbose := false } queryStr).1 := by
  have key : ∀ e : RewriteRetrieveReadQueryEngine,
      (runQueryTraced e queryStr).1 = runQuery e queryStr := by
    intro e
    cases h1 : parseDecomposition
        (e.llm (rewritePrompt queryStr (categoriesWithDescriptions e))) with
    | error er =>
      unfold runQueryTraced runQuery
      simp only [h1]
    | ok sqs =>
      cases h2 : answerAllTraced e sqs with
      | error er =>
        have h2b : answerAll e sqs = .error er := by rw [← answerAllTraced_proj, h2]; rfl
        unfold runQueryTraced runQuery
        simp only [h1, h2, h2b]
      | ok p =>
        obtain ⟨answers, tr⟩ := p
        have h2b : answerAll e sqs = .ok answers := by rw [← answerAllTraced_proj, h2]; rfl
        unfold runQueryTraced runQuery
        simp only [h1, h2, h2b]
  refine ⟨key eng, ?_⟩
  rw [key { eng with verbose := true }, key { eng with verbose := false }]
  exact runQuery_ext { eng with verbose := true } { eng with verbose := false }
    rfl rfl rfl rfl queryStr

/-- Claim C7: `merge(q, [a])` depends only on the query, the answer and the
completion capability: engines sharing the completion capability but
differing in every other configuration field produce the same merge result,
which is a pure function of `q` and `a`; in this embedding the engine is a
pure value, so no state is carried between invocations. -/
theorem merge_depends_only_on_query_answer_and_llm
    (e1 e2 : RewriteRetrieveReadQueryEngine) (queryStr answer : String)
    (hllm : e1.llm = e2.llm) :
    merge e1 queryStr [answer] = merge e2 queryStr [answer] ∧
    merge e1 queryStr [answer] =
      trimString (e1.llm (validateAndMergePrompt queryStr answer)) := by
  unfold merge
  rw [hllm]
  exact ⟨rfl, rfl⟩

theorem merge_depends_only_on_query_answer_and_llm_witness :
    merge testEngine "q" ["a"] = merge testEngineAlt "q" ["a"] ∧
    merge testEngine "q" ["a"] =
      trimString (testEngine.llm (validateAndMergePrompt "q" "a")) :=
  merge_depends_only_on_query_answer_and_llm testEngine testEngineAlt "q" "a" rfl

end QueryRewriting

namespace Retrieval

theorem subIndexNodes_mem (splitters : List Splitter) (b : TextNode) :
    ∀ x ∈ subIndexNodes splitters b,
      ∃ p ∈ splitters, ∃ sn ∈ p b, x = IndexNode.from_text_node sn b.node_id := by
  induction splitters with
  | nil => intro x hx; simp [subIndexNodes] at hx
  | cons p rest ih =>
    intro x hx
    unfold subIndexNodes at hx
    rcases List.mem_append.mp hx with hx | hx
    · obtain ⟨sn, hsn, hx⟩ := List.mem_map.mp hx
      exact ⟨p, by simp, sn, hsn, hx.symm⟩
    · obtain ⟨p2, hp2, sn, hsn, hx⟩ := ih x hx
      exact ⟨p2, by simp [hp2], sn, hsn, hx⟩

/-- Claim C10: every element of the `all_nodes` chunk-reference construction
is an IndexNode whose `index_id` is the node id of the base node it was
derived from (either a sub-chunk of that base node or the base node itself),
and for every base node the list contains the base node converted to an
IndexNode with its own node id as `index_id`. -/
theorem all_nodes_reference_their_base_node
    (splitters : List Splitter) (base_nodes : List TextNode) :
    (∀ x ∈ buildAllNodes splitters base_nodes,
      ∃ b ∈ base_nodes, x.index_id = b.node_id ∧
        (x = IndexNode.from_text_node b b.node_id ∨
          ∃ p ∈ splitters, ∃ sn ∈ p b, x = IndexNode.from_text_node sn b.node_id)) ∧
    (∀ b ∈ base_nodes,
      IndexNode.from_text_node b b.node_id ∈ buildAllNodes splitters base_nodes) := by
  induction base_nodes with
  | nil => exact ⟨fun x hx => by simp [buildAllNodes] at hx, fun b hb => by simp at hb⟩
  | cons b rest ih =>
    constructor
    · intro x hx
      unfold buildAllNodes at hx
      rcases List.mem_append.mp hx with hx | hx
      · rcases List.mem_append.mp hx with hx | hx
        · obtain ⟨p, hp, sn, hsn, hx⟩ := subIndexNodes_mem splitters b x hx
          exact ⟨b, by simp, by rw [hx]; rfl, Or.inr ⟨p, hp, sn, hsn, hx⟩⟩
        · have hx : x = IndexNode.from_text_node b b.node_id := by simpa using hx
          exact ⟨b, by simp, by rw [hx]; rfl, Or.inl hx⟩
      · obtain ⟨b2, hb2, hid, hcase⟩ := ih.1 x hx
        exact ⟨b2, by simp [hb2], hid, hcase⟩
    · intro b2 hb2
      unfold buildAllNodes
      rcases List.mem_cons.mp hb2 with heq | hmem
      · subst heq
        exact List.mem_append.mpr (Or.inl (List.mem_append.mpr (Or.inr (by simp))))
      · exact List.mem_append.mpr (Or.inr (ih.2 b2 hmem))

theorem all_nodes_reference_their_base_node_witness :
    IndexNode.from_text_node ⟨"node-0", "alpha beta"⟩ "node-0" ∈
      buildAllNodes testSplitters testBaseNodes :=
  (all_nodes_reference_their_base_node testSplitters testBaseNodes).2
    ⟨"node-0", "alpha beta"⟩ (by decide)

end Retrieval

namespace MetaJson

theorem digitChar_props : ∀ d, d < 10 →
    (Nat.digitChar d).isDigit = true ∧ digitVal (Nat.digitChar d) = d ∧
    Nat.digitChar d ≠ 'n' ∧ Nat.digitChar d ≠ 't' ∧ Nat.digitChar d ≠ 'f' ∧
    Nat.digitChar d ≠ '"' ∧ Nat.digitChar d ≠ '[' ∧ Nat.digitChar d ≠ '{' ∧
    Nat.digitChar d ≠ '-' ∧ Nat.digitChar d ≠ ']' := by decide

theorem hexVal_digitChar : ∀ d, d < 16 → hexVal (Nat.digitChar d) = some d := by decide

theorem natCharsAux_eq (fuel : Nat) : ∀ n, n ≤ fuel →
    natCharsAux fuel n = ((Nat.digits 10 n).map Nat.digitChar).reverse := by
  induction fuel with
  | zero =>
    intro n hn
    interval_cases n
    simp [natCharsAux]
  | succ f ih =>
    intro n hn
    cases n with
    | zero => simp [natCharsAux]
    | succ m =>
      rw [natCharsAux, ih ((m + 1) / 10) (by omega),
        Nat.digits_def' (by norm_num : (1 : Nat) < 10) (Nat.succ_pos m)]
      simp

theorem natChars_eq_map (n : Nat) : natChars n = (natDigitsBE n).map Nat.digitChar := by
  unfold natChars natDigitsBE
  by_cases h : n = 0
  · simp [h]
    decide
  · simp [h, natCharsAux_eq n n le_rfl, List.map_reverse]

theorem natDigitsBE_ne_nil (n : Nat) : natDigitsBE n ≠ [] := by
  unfold natDigitsBE
  by_cases h : n = 0
  · simp [h]
  · simp [h, Nat.digits_ne_nil_iff_ne_zero.mpr h]

theorem natDigitsBE_lt (n : Nat) : ∀ d ∈ natDigitsBE n, d < 10 := by
  unfold natDigitsBE
  by_cases h : n = 0
  · simp [h]
  · intro d hd
    simp only [h, if_false, List.mem_reverse] at hd
    exact Nat.digits_lt_base (by norm_num) hd

theorem ofDigits_reverse_natDigitsBE (n : Nat) :
    Nat.ofDigits 10 (natDigitsBE n).reverse = n := by
  unfold natDigitsBE
  by_cases h : n = 0
  · simp [h, Nat.ofDigits]
  · simp [h, List.reverse_reverse, Nat.ofDigits_digits]

theorem readDigits_map : ∀ (ds : List Nat) (rest : List Char),
    (∀ d ∈ ds, d < 10) → nonDigitHead rest →
    readDigits (ds.map Nat.digitChar ++ rest) = (ds, rest) := by
  intro ds
  induction ds with
  | nil =>
    intro rest hds hrest
    cases rest with
    | nil => rfl
    | cons c cs =>
      unfold nonDigitHead at hrest
      simp [readDigits, hrest]
  | cons d tl ih =>
    intro rest hds hrest
    have hd : d < 10 := hds d (by simp)
    obtain ⟨hdig, hval, -⟩ := digitChar_props d hd
    simp only [List.map_cons, List.cons_append]
    rw [readDigits]
    simp [hdig, hval, ih rest (fun x hx => hds x (by simp [hx])) hrest]

theorem escapeChar_length_pos (c : Char) : 1 ≤ (escapeChar c).length := by
  unfold escapeChar
  split_ifs <;> simp [hex4]

theorem escapeChars_length_ge : ∀ s : List Char, s.length ≤ (escapeChars s).length := by
  intro s
  induction s with
  | nil => simp [escapeChars]
  | cons c cs ih =>
    unfold escapeChars
    simp only [List.length_append, List.length_cons]
    have := escapeChar_length_pos c
    omega

theorem char_toNat_valid (c : Char) :
    c.toNat < 0xd800 ∨ (0xdfff < c.toNat ∧ c.toNat < 0x110000) := by
  have h := c.valid
  unfold UInt32.isValidChar at h
  unfold Nat.isValidChar at h
  exact h



theorem parse_escape : ∀ (s : List Char) (fuel : Nat) (rest : List Char),
    s.length < fuel →
    parseStrF fuel (escapeChars s ++ '"' :: rest) = some (s, rest) := by
  intro s
  induction s with
  | nil =>
    intro fuel rest hf
    cases fuel with
    | zero => omega
    | succ f => simp [escapeChars, parseStrF]
  | cons c cs ih =>
    intro fuel rest hf
    cases fuel with
    | zero => omega
    | succ f =>
      have hlen : cs.length < f := by
        simp only [List.length_cons] at hf
        omega
      unfold escapeChars
      unfold escapeChar
      split_ifs with h1 h2 h3 h4 h5 h6 h7 h8 h9
      · subst h1
        simp [parseStrF, ih f rest hlen]
      · subst h2
        simp [parseStrF, ih f rest hlen]
      · subst h3
        simp [parseStrF, ih f rest hlen]
      · subst h4
        simp [parseStrF, ih f rest hlen]
      · subst h5
        simp [parseStrF, ih f rest hlen]
      · subst h6
        simp [parseStrF, ih f rest hlen]
      · subst h7
        simp [parseStrF, ih f rest hlen]
      · simp [parseStrF, h1, h2, ih f rest hlen]
      · -- basic multilingual plane escape
        have hval : c.toNat < 0xd800 ∨ 0xdfff < c.toNat := by
          rcases char_toNat_valid c with h | h
          · exact Or.inl h
          · exact Or.inr h.1
        have hn : c.toNat / 4096 % 16 * 4096 + c.toNat / 256 % 16 * 256 +
            c.toNat / 16 % 16 * 16 + c.toNat % 16 = c.toNat := by omega
        have e1 : hexVal (Nat.digitChar (c.toNat / 4096 % 16)) =
            some (c.toNat / 4096 % 16) := hexVal_digitChar _ (by omega)
        have e2 : hexVal (Nat.digitChar (c.toNat / 256 % 16)) =
            some (c.toNat / 256 % 16) := hexVal_digitChar _ (by omega)
        have e3 : hexVal (Nat.digitChar (c.toNat / 16 % 16)) =
            some (c.toNat / 16 % 16) := hexVal_digitChar _ (by omega)
        have e4 : hexVal (Nat.digitChar (c.toNat % 16)) =
            some (c.toNat % 16) := hexVal_digitChar _ (by omega)
        simp only [hex4, List.cons_append, List.append_assoc, List.nil_append]
        rw [parseStrF]
        simp [e1, e2, e3, e4, hn, hval, ih f rest hlen, Char.ofNat_toNat]
      · -- astral plane: surrogate pair escape
        have hge : 0x10000 ≤ c.toNat := by omega
        have hlt : c.toNat < 0x110000 := by
          rcases char_toNat_valid c with h | h
          · omega
          · exact h.2
        have hhi : (0xd800 + (c.toNat - 0x10000) / 0x400) / 4096 % 16 * 4096 +
            (0xd800 + (c.toNat - 0x10000) / 0x400) / 256 % 16 * 256 +
            (0xd800 + (c.toNat - 0x10000) / 0x400) / 16 % 16 * 16 +
            (0xd800 + (c.toNat - 0x10000) / 0x400) % 16 =
            0xd800 + (c.toNat - 0x10000) / 0x400 := by omega
        have hlo : (0xdc00 + (c.toNat - 0x10000) % 0x400) / 4096 % 16 * 4096 +
            (0xdc00 + (c.toNat - 0x10000) % 0x400) / 256 % 16 * 256 +
            (0xdc00 + (c.toNat - 0x10000) % 0x400) / 16 % 16 * 16 +
            (0xdc00 + (c.toNat - 0x10000) % 0x400) % 16 =
            0xdc00 + (c.toNat - 0x10000) % 0x400 := by omega
        have e1 : hexVal (Nat.digitChar ((0xd800 + (c.toNat - 0x10000) / 0x400) / 4096 % 16)) =
            some ((0xd800 + (c.toNat - 0x10000) / 0x400) / 4096 % 16) :=
          hexVal_digitChar _ (by omega)
        have e2 : hexVal (Nat.digitChar ((0xd800 + (c.toNat - 0x10000) / 0x400) / 256 % 16)) =
            some ((0xd800 + (c.toNat - 0x10000) / 0x400) / 256 % 16) :=
          hexVal_digitChar _ (by omega)
        have e3 : hexVal (Nat.digitChar ((0xd800 + (c.toNat - 0x10000) / 0x400) / 16 % 16)) =
            some ((0xd800 + (c.toNat - 0x10000) / 0x400) / 16 % 16) :=
          hexVal_digitChar _ (by omega)
        have e4 : hexVal (Nat.digitChar ((0xd800 + (c.toNat - 0x10000) / 0x400) % 16)) =
            some ((0xd800 + (c.toNat - 0x10000) / 0x400) % 16) :=
          hexVal_digitChar _ (by omega)
        have f1 : hexVal (Nat.digitChar ((0xdc00 + (c.toNat - 0x10000) % 0x400) / 4096 % 16)) =
            some ((0xdc00 + (c.toNat - 0x10000) % 0x400) / 4096 % 16) :=
          hexVal_digitChar _ (by omega)
        have f2 : hexVal (Nat.digitChar ((0xdc00 + (c.toNat - 0x10000) % 0x400) / 256 % 16)) =
            some ((0xdc00 + (c.toNat - 0x10000) % 0x400) / 256 % 16) :=
          hexVal_digitChar _ (by omega)
        have f3 : hexVal (Nat.digitChar ((0xdc00 + (c.toNat - 0x10000) % 0x400) / 16 % 16)) =
            some ((0xdc00 + (c.toNat - 0x10000) % 0x400) / 16 % 16) :=
          hexVal_digitChar _ (by omega)
        have f4 : hexVal (Nat.digitChar ((0xdc00 + (c.toNat - 0x10000) % 0x400) % 16)) =
            some ((0xdc00 + (c.toNat - 0x10000) % 0x400) % 16) :=
          hexVal_digitChar _ (by omega)
        have hc1 : ¬(0xd800 + (c.toNat - 0x10000) / 0x400 < 0xd800 ∨
            0xdfff < 0xd800 + (c.toNat - 0x10000) / 0x400) := by omega
        have hc2 : 0xd800 + (c.toNat - 0x10000) / 0x400 ≤ 0xdbff := by omega
        have hc3 : 0xdc00 ≤ 0xdc00 + (c.toNat - 0x10000) % 0x400 ∧
            0xdc00 + (c.toNat - 0x10000) % 0x400 ≤ 0xdfff := by
          constructor <;> omega
        have hc : 0x10000 + (0xd800 + (c.toNat - 0x10000) / 0x400 - 0xd800) * 0x400 +
            (0xdc00 + (c.toNat - 0x10000) % 0x400 - 0xdc00) = c.toNat := by omega
        simp only [hex4, List.cons_append, List.append_assoc, List.nil_append]
        rw [parseStrF]
        simp [e1, e2, e3, e4, f1, f2, f3, f4, hhi, hlo, hc1, hc2, hc3, hc,
          ih f rest hlen, Char.ofNat_toNat]
        have hc1b : ¬ 57343 < 55296 + (c.toNat - 65536) / 1024 := by omega
        have hc4 : 65536 + (c.toNat - 65536) / 1024 * 1024 + (c.toNat - 65536) % 1024 =
            c.toNat := by omega
        rw [if_neg hc1b, hc4, Char.ofNat_toNat]


theorem natChars_shape (n : Nat) :
    ∃ d ds, d < 10 ∧ natChars n = Nat.digitChar d :: ds := by
  have h := natChars_eq_map n
  cases hbe : natDigitsBE n with
  | nil => exact absurd hbe (natDigitsBE_ne_nil n)
  | cons d ds =>
    refine ⟨d, ds.map Nat.digitChar, ?_, ?_⟩
    · exact natDigitsBE_lt n d (by rw [hbe]; simp)
    · rw [h, hbe]
      simp

theorem printVal_head_ne_rbracket (v : JVal) :
    ∃ c cs, printVal v = c :: cs ∧ c ≠ ']' := by
  cases v with
  | null => exact ⟨'n', ['u', 'l', 'l'], by simp [printVal], by decide⟩
  | bool b =>
    cases b with
    | false => exact ⟨'f', ['a', 'l', 's', 'e'], by simp [printVal], by decide⟩
    | true => exact ⟨'t', ['r', 'u', 'e'], by simp [printVal], by decide⟩
  | num i =>
    by_cases h : i < 0
    · exact ⟨'-', natChars i.natAbs, by simp [printVal, printInt, h], by decide⟩
    · obtain ⟨d, ds, hlt, hshape⟩ := natChars_shape i.natAbs
      refine ⟨Nat.digitChar d, ds, ?_, ?_⟩
      · simp [printVal, printInt, h, hshape]
      · exact (digitChar_props d hlt).2.2.2.2.2.2.2.2.2
  | str s => exact ⟨'"', escapeChars s.data ++ ['"'], by simp [printVal], by decide⟩
  | arr es => exact ⟨'[', printElems es ++ [']'], by simp [printVal], by decide⟩
  | obj ms => exact ⟨'{', printMembers ms ++ ['}'], by simp [printVal], by decide⟩

theorem fuelNeed_pos (v : JVal) : 1 ≤ fuelNeed v := by
  cases v with
  | null => simp [fuelNeed]
  | bool b => simp [fuelNeed]
  | num i => simp [fuelNeed]
  | str s => simp [fuelNeed]
  | arr es => cases es <;> simp [fuelNeed]
  | obj ms => cases ms <;> simp [fuelNeed]

theorem fuelNeedEs_pos (es : List JVal) (h : es ≠ []) : 1 ≤ fuelNeedEs es := by
  cases es with
  | nil => exact absurd rfl h
  | cons e tl => simp [fuelNeedEs]

theorem fuelNeedMs_pos (ms : List (String × JVal)) (h : ms ≠ []) : 1 ≤ fuelNeedMs ms := by
  cases ms with
  | nil => exact absurd rfl h
  | cons m tl =>
    obtain ⟨k, v⟩ := m
    simp [fuelNeedMs]

mutual

theorem fuelNeed_le_lenV (v : JVal) : fuelNeed v ≤ (printVal v).length := by
  cases v with
  | null => simp [fuelNeed, printVal]
  | bool b => cases b <;> simp [fuelNeed, printVal]
  | num i =>
    by_cases h : i < 0
    · simp [fuelNeed, printVal, printInt, h]
    · obtain ⟨d, ds, _, hshape⟩ := natChars_shape i.natAbs
      simp [fuelNeed, printVal, printInt, h, hshape]
  | str s => simp [fuelNeed, printVal]
  | arr es =>
    cases es with
    | nil => simp [fuelNeed, printVal, printElems]
    | cons e tl =>
      have h := fuelNeedEs_le_lenEs (e :: tl) (by simp)
      simp only [fuelNeed, printVal, List.length_cons, List.length_append]
      simp at h ⊢
      omega
  | obj ms =>
    cases ms with
    | nil => simp [fuelNeed, printVal, printMembers]
    | cons m tl =>
      have h := fuelNeedMs_le_lenMs (m :: tl) (by simp)
      simp only [fuelNeed, printVal, List.length_cons, List.length_append]
      simp at h ⊢
      omega

theorem fuelNeedEs_le_lenEs (es : List JVal) (h : es ≠ []) :
    fuelNeedEs es ≤ (printElems es).length + 1 := by
  cases es with
  | nil => exact absurd rfl h
  | cons e tl =>
    have h1 := fuelNeed_le_lenV e
    cases tl with
    | nil => simp [fuelNeedEs, printElems]; omega
    | cons t ts =>
      have h2 := fuelNeedEs_le_lenEs (t :: ts) (by simp)
      simp [fuelNeedEs, printElems] at h2 ⊢
      omega

theorem fuelNeedMs_le_lenMs (ms : List (String × JVal)) (h : ms ≠ []) :
    fuelNeedMs ms ≤ (printMembers ms).length + 1 := by
  cases ms with
  | nil => exact absurd rfl h
  | cons m tl =>
    obtain ⟨k, v⟩ := m
    have h1 := fuelNeed_le_lenV v
    cases tl with
    | nil => simp [fuelNeedMs, printMembers]; omega
    | cons t ts =>
      have h2 := fuelNeedMs_le_lenMs (t :: ts) (by simp)
      simp [fuelNeedMs, printMembers] at h2 ⊢
      omega

end



theorem parse_print : ∀ fuel : Nat,
    (∀ (v : JVal) (rest : List Char), fuelNeed v ≤ fuel → nonDigitHead rest →
      parseF fuel .pv (printVal v ++ rest) = some (v, rest)) ∧
    (∀ (es : List JVal) (rest : List Char), es ≠ [] → fuelNeedEs es ≤ fuel →
      parseF fuel .pe (printElems es ++ ']' :: rest) = some (.arr es, rest)) ∧
    (∀ (ms : List (String × JVal)) (rest : List Char), ms ≠ [] → fuelNeedMs ms ≤ fuel →
      parseF fuel .pm (printMembers ms ++ '}' :: rest) = some (.obj ms, rest)) := by
  intro fuel
  induction fuel with
  | zero =>
    refine ⟨?_, ?_, ?_⟩
    · intro v rest hv _
      exact absurd hv (by have := fuelNeed_pos v; omega)
    · intro es rest hne hes
      exact absurd hes (by have := fuelNeedEs_pos es hne; omega)
    · intro ms rest hne hms
      exact absurd hms (by have := fuelNeedMs_pos ms hne; omega)
  | succ f ih =>
    obtain ⟨ihv, ihe, ihm⟩ := ih
    refine ⟨?_, ?_, ?_⟩
    · intro v rest hfuel hrest
      cases v with
      | null => simp [printVal, parseF, parseValStep]
      | bool b => cases b <;> simp [printVal, parseF, parseValStep]
      | num i =>
        have hread : readDigits (natChars i.natAbs ++ rest) =
            (natDigitsBE i.natAbs, rest) := by
          rw [natChars_eq_map]
          exact readDigits_map _ rest (natDigitsBE_lt _) hrest
        have hofd : Nat.ofDigits 10 (natDigitsBE i.natAbs).reverse = i.natAbs :=
          ofDigits_reverse_natDigitsBE _
        cases hbe : natDigitsBE i.natAbs with
        | nil => exact absurd hbe (natDigitsBE_ne_nil _)
        | cons d0 ds0 =>
          rw [hbe] at hread hofd
          rw [List.reverse_cons] at hofd
          by_cases h : i < 0
          · simp only [printVal, printInt, if_pos h, List.cons_append]
            rw [parseF]
            simp [parseValStep, hread]
            rw [hofd]
            omega
          · obtain ⟨d, ds, hd10, hshape⟩ := natChars_shape i.natAbs
            obtain ⟨hdig, -, hn1, hn2, hn3, hn4, hn5, hn6, hn7, -⟩ := digitChar_props d hd10
            have hback : Nat.digitChar d :: (ds ++ rest) = natChars i.natAbs ++ rest := by
              rw [hshape, List.cons_append]
            simp only [printVal, printInt, if_neg h, hshape, List.cons_append]
            rw [parseF]
            simp only [parseValStep]
            simp only [hn1, hn2, hn3, hn4, hn5, hn6, hn7, if_false, reduceIte, hdig]
            rw [hback, hread]
            simp
            rw [hofd]
            omega
      | str s =>
        have hk : s.data.length < (escapeChars s.data ++ '"' :: rest).length + 1 := by
          have := escapeChars_length_ge s.data
          simp only [List.length_append, List.length_cons]
          omega
        have hps := parse_escape s.data
          ((escapeChars s.data).length + (rest.length + 1) + 1) rest
          (by have := escapeChars_length_ge s.data; omega)
        simp only [printVal, List.cons_append, List.append_assoc, List.singleton_append,
          List.nil_append]
        rw [parseF]
        simp [parseValStep, hps]
      | arr es =>
        cases es with
        | nil => simp [printVal, printElems, parseF, parseValStep]
        | cons e tl =>
          obtain ⟨c0, cs0, hpe, hc0⟩ := printVal_head_ne_rbracket e
          have hfe : fuelNeedEs (e :: tl) ≤ f := by
            simp only [fuelNeed] at hfuel
            omega
          obtain ⟨X, hX⟩ : ∃ X, printElems (e :: tl) = c0 :: X := by
            cases tl with
            | nil => exact ⟨cs0, by simp [printElems, hpe]⟩
            | cons t ts =>
              exact ⟨cs0 ++ ',' :: ' ' :: printElems (t :: ts), by simp [printElems, hpe]⟩
          have hback : c0 :: (X ++ ']' :: rest) = printElems (e :: tl) ++ ']' :: rest := by
            rw [hX, List.cons_append]
          have hpe2 : parseF f .pe (c0 :: (X ++ ']' :: rest)) =
              some (.arr (e :: tl), rest) := by
            rw [hback]
            exact ihe (e :: tl) rest (by simp) hfe
          simp only [printVal, List.cons_append, List.append_assoc, List.singleton_append,
            List.nil_append]
          rw [parseF]
          rw [hX, List.cons_append]
          simp [parseValStep, hc0, hpe2]
      | obj ms =>
        cases ms with
        | nil => simp [printVal, printMembers, parseF, parseValStep]
        | cons m tl =>
          obtain ⟨k, v⟩ := m
          have hfm : fuelNeedMs ((k, v) :: tl) ≤ f := by
            simp only [fuelNeed] at hfuel
            omega
          obtain ⟨X, hX⟩ : ∃ X, printMembers ((k, v) :: tl) = '"' :: X := by
            cases tl with
            | nil =>
              exact ⟨escapeChars k.data ++ '"' :: ':' :: ' ' :: printVal v,
                by simp [printMembers]⟩
            | cons t ts =>
              exact ⟨(escapeChars k.data ++ '"' :: ':' :: ' ' :: printVal v)
                  ++ ',' :: ' ' :: printMembers (t :: ts),
                by simp [printMembers]⟩
          have hback : ('"' : Char) :: (X ++ '}' :: rest) =
              printMembers ((k, v) :: tl) ++ '}' :: rest := by
            rw [hX, List.cons_append]
          have hpm2 : parseF f .pm (('"' : Char) :: (X ++ '}' :: rest)) =
              some (.obj ((k, v) :: tl), rest) := by
            rw [hback]
            exact ihm ((k, v) :: tl) rest (by simp) hfm
          simp only [printVal, List.cons_append, List.append_assoc, List.singleton_append,
            List.nil_append]
          rw [parseF]
          rw [hX, List.cons_append]
          simp [parseValStep, hpm2]
    · intro es rest hne hfes
      cases es with
      | nil => exact absurd rfl hne
      | cons e tl =>
        have hfe : fuelNeed e ≤ f ∧ fuelNeedEs tl ≤ f := by
          simp only [fuelNeedEs] at hfes
          constructor <;> omega
        rw [parseF]
        cases tl with
        | nil =>
          simp only [printElems]
          simp only [parseElemsStep]
          rw [ihv e (']' :: rest) hfe.1 (by simp [nonDigitHead])]
          rfl
        | cons t ts =>
          simp only [printElems, List.append_assoc, List.cons_append]
          simp only [parseElemsStep]
          rw [ihv e (',' :: ' ' :: (printElems (t :: ts) ++ ']' :: rest)) hfe.1
            (by simp [nonDigitHead])]
          show (match parseF f PMode.pe (printElems (t :: ts) ++ ']' :: rest) with
            | some (.arr vs, r3) => some (JVal.arr (e :: vs), r3)
            | _ => none) = some (.arr (e :: t :: ts), rest)
          rw [ihe (t :: ts) rest (by simp) hfe.2]
    · intro ms rest hne hfms
      cases ms with
      | nil => exact absurd rfl hne
      | cons m tl =>
        obtain ⟨k, v⟩ := m
        have hf2 : fuelNeed v ≤ f ∧ fuelNeedMs tl ≤ f := by
          simp only [fuelNeedMs] at hfms
          constructor <;> omega
        rw [parseF]
        cases tl with
        | nil =>
          simp only [printMembers, List.append_assoc, List.cons_append]
          simp only [parseMembersStep]
          have hk : k.data.length <
              (escapeChars k.data ++ '"' :: (':' :: ' ' :: (printVal v ++ '}' :: rest))).length
                + 1 := by
            have := escapeChars_length_ge k.data
            simp only [List.length_append, List.length_cons]
            omega
          rw [parse_escape k.data _ (':' :: ' ' :: (printVal v ++ '}' :: rest)) hk]
          simp only []
          rw [ihv v ('}' :: rest) hf2.1 (by simp [nonDigitHead])]
          rfl
        | cons t ts =>
          simp only [printMembers, List.append_assoc, List.cons_append]
          simp only [parseMembersStep]
          have hk : k.data.length <
              (escapeChars k.data ++ '"' :: (':' :: ' ' ::
                (printVal v ++ ',' :: ' ' :: (printMembers (t :: ts) ++ '}' :: rest)))).length
                + 1 := by
            have := escapeChars_length_ge k.data
            simp only [List.length_append, List.length_cons]
            omega
          rw [parse_escape k.data _
            (':' :: ' ' :: (printVal v ++ ',' :: ' ' :: (printMembers (t :: ts) ++ '}' :: rest)))
            hk]
          simp only []
          rw [ihv v (',' :: ' ' :: (printMembers (t :: ts) ++ '}' :: rest)) hf2.1
            (by simp [nonDigitHead])]
          show (match parseF f PMode.pm (printMembers (t :: ts) ++ '}' :: rest) with
            | some (.obj ms, r6) => some (JVal.obj ((k, v) :: ms), r6)
            | _ => none) = some (.obj ((k, v) :: t :: ts), rest)
          rw [ihm (t :: ts) rest (by simp) hf2.2]



theorem loads_dumps (v : JVal) : loads (dumps v) = some v := by
  have hfuel : fuelNeed v ≤ (printVal v).length + 1 :=
    le_trans (fuelNeed_le_lenV v) (Nat.le_succ _)
  have h := (parse_print ((printVal v).length + 1)).1 v [] hfuel trivial
  rw [List.append_nil] at h
  unfold loads dumps
  rw [show (String.mk (printVal v)).data = printVal v from rfl]
  rw [h]

/-- Claim C9: for every dictionary representable in JSON and every path,
`load_metadata_dicts` applied after `save_metadata_dicts` at the same path
returns the saved dictionary: save followed by load is a round trip. -/
theorem save_then_load_roundtrip :
    ∀ (path : String) (data : List (String × JVal)) (fs : List (String × String)),
      load_metadata_dicts path (save_metadata_dicts path data fs) = some (.obj data) := by
  intro path data fs
  unfold load_metadata_dicts save_metadata_dicts
  have hl : List.lookup path ((path, dumps (.obj data)) :: fs) =
      some (dumps (.obj data)) := by
    simp [List.lookup]
  rw [hl]
  exact loads_dumps (.obj data)

end MetaJson
